import Mathlib

set_option autoImplicit false

/-!
Shallow embedding of `monosi/monitors/table_metrics.py`: the metric
compilation and result-interpretation engine of the monosi repository.
Python strings are modelled as lists of characters, Python floats as
rationals, runtime values occurring in result cells as `PyVal`, and
raised exceptions as the `Except` monad.  Python dicts are modelled as
insertion-ordered association lists, and the object references stored in
the compiler's metric map as indices into the compiler's metric list.
-/

namespace Monosi

/-- Python strings, modelled as lists of characters. -/
abbrev Str := List Char

/-- Runtime values that can appear in a result-set cell or in a
`MetricDataPoint.value` slot: `None`, a string, an int or a float. -/
inductive PyVal where
  | vNone
  | vStr (s : Str)
  | vInt (n : Int)
  | vFloat (q : Rat)
  deriving DecidableEq, Repr

/-- Exceptions raised by the Python builtin `float`. -/
inductive PyErr where
  | typeError
  | valueError
  deriving DecidableEq, Repr

/-- Exceptions that can escape the embedded code: a generic `Exception`
with a message (from `Metric.parse_alias`), a `KeyError` from a dict
lookup, and an uncaught `ValueError` from `float` on a non-numeric
string. -/
inductive Err where
  | exception (msg : Str)
  | keyError (k : Str)
  | valueError
  deriving DecidableEq, Repr

/-- Decidable equality of exception results, to evaluate the embedded
operations on concrete inputs. -/
instance {ε α : Type} [DecidableEq ε] [DecidableEq α] : DecidableEq (Except ε α)
  | .ok a, .ok b =>
      if h : a = b then .isTrue (by rw [h]) else .isFalse (by intro hc; cases hc; exact h rfl)
  | .error e, .error f =>
      if h : e = f then .isTrue (by rw [h]) else .isFalse (by intro hc; cases hc; exact h rfl)
  | .ok _, .error _ => .isFalse (by intro hc; cases hc)
  | .error _, .ok _ => .isFalse (by intro hc; cases hc)

/-- Numeric value of a list of decimal digits. -/
def digitsVal (l : Str) : Nat :=
  l.foldl (fun acc c => acc * 10 + (c.toNat - '0'.toNat)) 0

def isDigit (c : Char) : Bool := decide ('0' ≤ c) && decide (c ≤ '9')

/-- Modelled from Python's builtin `float` on strings (the subset
relevant here): digits, digits-dot-digits, digits-dot or dot-digits.
Returns `none` when the string is not a numeric literal of this form. -/
def parseUnsigned? (s : Str) : Option Rat :=
  let ip := s.takeWhile isDigit
  let rest := s.dropWhile isDigit
  match rest with
  | [] => if ip.isEmpty then none else some (digitsVal ip : Rat)
  | '.' :: fp =>
      if fp.all isDigit && !(ip.isEmpty && fp.isEmpty) then
        some ((digitsVal ip : Rat) + (digitsVal fp : Rat) / ((10 : Rat) ^ fp.length))
      else none
  | _ => none

/-- Modelled from Python's builtin `float` on strings: optional
surrounding spaces and an optional sign around an unsigned numeric
literal. -/
def parseFloat? (s : Str) : Option Rat :=
  let t := ((s.dropWhile (· = ' ')).reverse.dropWhile (· = ' ')).reverse
  match t with
  | '-' :: r => (parseUnsigned? r).map (fun q => -q)
  | '+' :: r => parseUnsigned? r
  | _ => parseUnsigned? t

/-- Python `float(x)`: floats and ints convert; `None` raises
`TypeError`; a string that is not a numeric literal raises
`ValueError`. -/
def pyFloat : PyVal → Except PyErr Rat
  | .vFloat q => .ok q
  | .vInt n => .ok (n : Rat)
  | .vStr s =>
      match parseFloat? s with
      | some q => .ok q
      | none => .error .valueError
  | .vNone => .error .typeError

/-- One step of rebuilding split parts: prepend a character to the first
part (used by `splitSep`). -/
def consHead (a : Char) : List Str → List Str
  | [] => [[a]]
  | p :: ps => (a :: p) :: ps

/-- Python `s.split` on the two-character separator of two underscores:
greedy left-to-right splitting. -/
def splitSep : Str → List Str
  | [] => [[]]
  | [a] => consHead a [[]]
  | a :: b :: rest =>
      if a = '_' ∧ b = '_' then [] :: splitSep rest
      else consHead a (splitSep (b :: rest))

/-- Python substring containment of the two-underscore separator:
whether two adjacent underscores occur. -/
def hasDD : Str → Bool
  | [] => false
  | [_] => false
  | a :: b :: rest => (decide (a = '_' ∧ b = '_')) || hasDD (b :: rest)

/-- The `MetricType` enum of `table_metrics.py`. -/
inductive MetricType where
  | COMPLETENESS
  | APPROX_DISTINCT_COUNT
  | APPROX_DISTINCTNESS
  | MEAN_LENGTH
  | MAX_LENGTH
  | MIN_LENGTH
  | STD_LENGTH
  | TEXT_INT_RATE
  | TEXT_NUMBER_RATE
  | TEXT_UUID_RATE
  | TEXT_ALL_SPACES_RATE
  | TEXT_NULL_KEYWORD_RATE
  | ZERO_RATE
  | NEGATIVE_RATE
  | NUMERIC_MEAN
  | NUMERIC_MIN
  | NUMERIC_MAX
  | NUMERIC_STD
  deriving DecidableEq, Repr

/-- The string value of each `MetricType` member. -/
def MetricType.value : MetricType → Str
  | .COMPLETENESS => "completeness".data
  | .APPROX_DISTINCT_COUNT => "approx_distinct_count".data
  | .APPROX_DISTINCTNESS => "approx_distinctness".data
  | .MEAN_LENGTH => "mean_length".data
  | .MAX_LENGTH => "max_length".data
  | .MIN_LENGTH => "min_length".data
  | .STD_LENGTH => "std_length".data
  | .TEXT_INT_RATE => "text_int_rate".data
  | .TEXT_NUMBER_RATE => "text_number_rate".data
  | .TEXT_UUID_RATE => "text_uuid_rate".data
  | .TEXT_ALL_SPACES_RATE => "text_all_spaces_rate".data
  | .TEXT_NULL_KEYWORD_RATE => "text_null_keyword_rate".data
  | .ZERO_RATE => "zero_rate".data
  | .NEGATIVE_RATE => "negative_rate".data
  | .NUMERIC_MEAN => "numeric_mean".data
  | .NUMERIC_MIN => "numeric_min".data
  | .NUMERIC_MAX => "numeric_max".data
  | .NUMERIC_STD => "numeric_std".data

/-- Modelled from the spec: the column data categories of
`monosi.drivers.column.ColumnDataType` (the drivers module is not among
the sources here).  The spec's TEXT, NUMERIC and OTHER categories
correspond to `STRING`, `INTEGER` and any other member, collapsed into
`OTHER`. -/
inductive ColumnDataType where
  | STRING
  | INTEGER
  | OTHER
  deriving DecidableEq, Repr

/-- `MetricType._string_types`. -/
def MetricType.string_types : List MetricType :=
  [.COMPLETENESS, .APPROX_DISTINCT_COUNT, .APPROX_DISTINCTNESS,
   .MEAN_LENGTH, .MAX_LENGTH, .MIN_LENGTH, .STD_LENGTH,
   .TEXT_INT_RATE, .TEXT_NUMBER_RATE, .TEXT_UUID_RATE,
   .TEXT_ALL_SPACES_RATE, .TEXT_NULL_KEYWORD_RATE]

/-- `MetricType._number_types`. -/
def MetricType.number_types : List MetricType :=
  [.COMPLETENESS, .ZERO_RATE, .NEGATIVE_RATE, .APPROX_DISTINCTNESS,
   .NUMERIC_MEAN, .NUMERIC_MIN, .NUMERIC_MAX, .NUMERIC_STD]

/-- `MetricType.default_for`: string columns get the string types,
integer columns the number types, everything else the empty list. -/
def MetricType.default_for (column_data_type : ColumnDataType) : List MetricType :=
  if column_data_type = .STRING then MetricType.string_types
  else if column_data_type = .INTEGER then MetricType.number_types
  else []

/-- A column descriptor as returned by `driver.describe_table`. -/
structure Column where
  name : Str
  data_type : ColumnDataType
  deriving DecidableEq, Repr

/-- The `MetricDataPoint` dataclass.  The fields hold whatever runtime
value the interpretation loop stores in them. -/
structure MetricDataPoint where
  value : PyVal
  window_start : PyVal
  window_end : PyVal
  deriving DecidableEq, Repr

/-- The `Metric` dataclass. -/
structure Metric where
  table_name : Str
  column_name : Str
  metric_type : MetricType
  values : List MetricDataPoint
  deriving DecidableEq, Repr

namespace Metric

/-- `Metric.completeness`. -/
def completeness : Str := "COUNT(\x7b\x7d) / CAST(COUNT(*) AS NUMERIC)".data

/-- `Metric.approx_distinct_count`. -/
def approx_distinct_count : Str := "COUNT(DISTINCT \x7b\x7d)".data

/-- `Metric.approx_distinctness`. -/
def approx_distinctness : Str :=
  "COUNT(DISTINCT \x7b\x7d) / CAST(COUNT(*) AS NUMERIC)".data

/-- `Metric.mean_length`. -/
def mean_length : Str := "AVG(LENGTH(\x7b\x7d))".data

/-- `Metric.max_length`. -/
def max_length : Str := "MAX(LENGTH(\x7b\x7d))".data

/-- `Metric.min_length`. -/
def min_length : Str := "MIN(LENGTH(\x7b\x7d))".data

/-- `Metric.std_length`. -/
def std_length : Str := "STDDEV(CAST(LENGTH(\x7b\x7d) as double))".data

/-- `Metric.text_int_rate`. -/
def text_int_rate : Str :=
  "SUM(IFF(REGEXP_COUNT(TO_VARCHAR(\x7b\x7d), \x27^([-+]?[0-9]+)$\x27, 1, \x27i\x27) != 0, 1, 0)) / CAST(COUNT(*) AS NUMERIC)".data

/-- `Metric.text_number_rate`. -/
def text_number_rate : Str :=
  "SUM(IFF(REGEXP_COUNT(TO_VARCHAR(\x7b\x7d), \x27^([-+]?[0-9]*[.]?[0-9]+([eE][-+]?[0-9]+)?)$\x27, 1, \x27i\x27) != 0, 1, 0)) / CAST(COUNT(*) AS NUMERIC)".data

/-- `Metric.text_uuid_rate` (the doubled braces are the format escapes
of the Python source). -/
def text_uuid_rate : Str :=
  "SUM(IFF(REGEXP_COUNT(TO_VARCHAR(\x7b\x7d), \x27^([0-9a-fA-F]\x7b\x7b8\x7d\x7d-[0-9a-fA-F]\x7b\x7b4\x7d\x7d-[0-9a-fA-F]\x7b\x7b4\x7d\x7d-[0-9a-fA-F]\x7b\x7b4\x7d\x7d-[0-9a-fA-F]\x7b\x7b12\x7d\x7d)$\x27, 1, \x27i\x27) != 0, 1, 0)) / CAST(COUNT(*) AS NUMERIC)".data

/-- `Metric.text_all_spaces_rate`. -/
def text_all_spaces_rate : Str :=
  "SUM(IFF(REGEXP_COUNT(TO_VARCHAR(\x7b\x7d), \x27^(\\\\s+)$\x27, 1, \x27i\x27) != 0, 1, 0)) / CAST(COUNT(*) AS NUMERIC)".data

/-- `Metric.text_null_keyword_rate`. -/
def text_null_keyword_rate : Str :=
  "SUM(IFF(UPPER(\x7b\x7d) IN (\x27NULL\x27, \x27NONE\x27, \x27NIL\x27, \x27NOTHING\x27), 1, 0)) / CAST(COUNT(*) AS NUMERIC)".data

/-- `Metric.zero_rate` (verbatim from the source, which repeats the
null-keyword expression here). -/
def zero_rate : Str :=
  "SUM(IFF(UPPER(\x7b\x7d) IN (\x27NULL\x27, \x27NONE\x27, \x27NIL\x27, \x27NOTHING\x27), 1, 0)) / CAST(COUNT(*) AS NUMERIC)".data

/-- `Metric.negative_rate`. -/
def negative_rate : Str :=
  "SUM(IFF(\x7b\x7d < 0, 1, 0)) / CAST(COUNT(*) AS NUMERIC)".data

/-- `Metric.numeric_mean`. -/
def numeric_mean : Str := "AVG(\x7b\x7d)".data

/-- `Metric.numeric_min`. -/
def numeric_min : Str := "MIN(\x7b\x7d)".data

/-- `Metric.numeric_max`. -/
def numeric_max : Str := "MAX(\x7b\x7d)".data

/-- `Metric.numeric_std`. -/
def numeric_std : Str := "STDDEV(CAST(\x7b\x7d as double))".data

/-- `Metric._retrieve_unformatted_sql`: the conditional dispatch of the
source, including its branch for `NUMERIC_MIN`, which returns the
`numeric_mean` template (source line 202). -/
def retrieve_unformatted_sql : MetricType → Str
  | .COMPLETENESS => completeness
  | .APPROX_DISTINCT_COUNT => approx_distinct_count
  | .APPROX_DISTINCTNESS => approx_distinctness
  | .MEAN_LENGTH => mean_length
  | .MAX_LENGTH => max_length
  | .MIN_LENGTH => min_length
  | .STD_LENGTH => std_length
  | .TEXT_INT_RATE => text_int_rate
  | .TEXT_NUMBER_RATE => text_number_rate
  | .TEXT_UUID_RATE => text_uuid_rate
  | .TEXT_ALL_SPACES_RATE => text_all_spaces_rate
  | .TEXT_NULL_KEYWORD_RATE => text_null_keyword_rate
  | .ZERO_RATE => zero_rate
  | .NEGATIVE_RATE => negative_rate
  | .NUMERIC_MEAN => numeric_mean
  | .NUMERIC_MIN => numeric_mean
  | .NUMERIC_MAX => numeric_max
  | .NUMERIC_STD => numeric_std

/-- Python single-argument `template.format(col)` as used on the
templates above: the empty placeholder is replaced by `col`, and a
doubled opening or closing brace becomes a single literal brace. -/
def pyFormat1 : Str → Str → Str
  | [], _ => []
  | [a], _ => [a]
  | a :: b :: rest, col =>
      if a = '\x7b' ∧ b = '\x7d' then col ++ pyFormat1 rest col
      else if a = '\x7b' ∧ b = '\x7b' then '\x7b' :: pyFormat1 rest col
      else if a = '\x7d' ∧ b = '\x7d' then '\x7d' :: pyFormat1 rest col
      else a :: pyFormat1 (b :: rest) col

/-- `Metric.alias` as a function of the two components: the column name
joined to the metric type value by a double underscore. -/
def aliasOf (column_name : Str) (metric_type : MetricType) : Str :=
  column_name ++ "__".data ++ metric_type.value

/-- The `Metric.alias` property (`alias` is a reserved word in Lean, so
the name carries a suffix here). -/
def aliasStr (m : Metric) : Str := aliasOf m.column_name m.metric_type

/-- `Metric.sql`: the formatted template wrapped by `METRIC_COLUMN`,
i.e. the rendered expression, the literal ` AS `, and the alias. -/
def sql (m : Metric) : Str :=
  pyFormat1 (retrieve_unformatted_sql m.metric_type) m.column_name
    ++ " AS ".data ++ m.aliasStr

/-- `Metric.parse_alias`: lower-case the alias, split on the double
underscore, require exactly two parts, and return the (again
lower-cased) parts.  Raises a generic `Exception` otherwise. -/
def parse_alias (a : Str) : Except Err (Str × Str) :=
  match splitSep (a.map Char.toLower) with
  | [p0, p1] => .ok (p0.map Char.toLower, p1.map Char.toLower)
  | _ => .error (.exception "Could not parse metric alias".data)

/-- The body of the loop in `Metric.nonnull_values`: try to coerce the
point's value with `float`, keeping the point unchanged when any
exception is raised (the source catches every exception here). -/
def coercePoint (p : MetricDataPoint) : MetricDataPoint :=
  match pyFloat p.value with
  | .ok q => { p with value := .vFloat q }
  | .error _ => p

/-- `Metric.nonnull_values`: coerce every stored point in place, then
return those whose value is not `None`.  The first component is the
metric after the in-place mutation, the second the returned list. -/
def nonnull_values (m : Metric) : Metric × List MetricDataPoint :=
  let vs := m.values.map coercePoint
  ({ m with values := vs }, vs.filter (fun p => decide (p.value ≠ PyVal.vNone)))

end Metric

/-- The `TableMetricsMonitor` fields consumed by the compiler (the
filter fields declared on the dataclass are never read by it). -/
structure TableMetricsMonitor where
  table : Str
  timestamp_field : Str
  deriving DecidableEq, Repr

namespace MetricCompiler

/-- `MetricCompiler.SPECIAL_KEYS`. -/
def SPECIAL_KEYS : List Str :=
  ["window_start".data, "window_end".data, "row_count".data]

/-- `TableMetricsMonitor._columns_to_metrics` (defined in the source but
never called anywhere): drop columns with reserved names, then parse
every remaining name as an alias, raising on the first failure. -/
def columns_to_metrics (columns : List Column) : Except Err (List (Str × Str)) :=
  (columns.filter
      (fun c => decide ((c.name.map Char.toLower) ∉ SPECIAL_KEYS))).mapM
    (fun c => Metric.parse_alias c.name)

/-- `MetricCompiler._create_metrics`: one fresh empty `Metric` per
column and per default metric type of the column's data type, in
order.  No column is skipped. -/
def create_metrics (table_name : Str) : List Column → List Metric
  | [] => []
  | column :: rest =>
      (MetricType.default_for column.data_type).map
        (fun metric_type => ⟨table_name, column.name, metric_type, []⟩)
        ++ create_metrics table_name rest

/-- `MetricCompiler.BASE_SQL` with its four named placeholders
substituted, rendered as explicit concatenation of the literal chunks
of the template. -/
def base_sql_formatted (timestamp_field metric_sql table days_ago : Str) : Str :=
  "\n    SELECT \n        DATE_TRUNC(\x27HOUR\x27, ".data ++ timestamp_field
    ++ ") as window_start, \n        DATEADD(hr, 1, DATE_TRUNC(\x27HOUR\x27, ".data
    ++ timestamp_field
    ++ ")) as window_end, \n\n        COUNT(*) as row_count, \n\n        ".data
    ++ metric_sql
    ++ "\n\n    FROM ".data ++ table
    ++ "\n    WHERE \n        DATE_TRUNC(\x27HOUR\x27, ".data ++ timestamp_field
    ++ ") >= DATEADD(day, ".data ++ days_ago
    ++ ", CURRENT_TIMESTAMP()) \n    GROUP BY window_start, window_end \n    ORDER BY window_start ASC;\n    ".data

/-- Python joining of the metric fragments with a comma and newline. -/
def joinComma : List Str → Str
  | [] => []
  | [p] => p
  | p :: rest => p ++ ",\n".data ++ joinComma rest

/-- `MetricCompiler.build_query`: create the metrics for all columns,
join their SQL fragments and substitute into `BASE_SQL` with the fixed
`days_ago` of -85788.  Returns the new compiler state (`self.metrics`)
and the query text. -/
def build_query (monitor : TableMetricsMonitor) (columns : List Column) :
    List Metric × Str :=
  let metrics := create_metrics monitor.table columns
  let metric_sql := joinComma (metrics.map Metric.sql)
  (metrics,
   base_sql_formatted monitor.timestamp_field metric_sql monitor.table "-85788".data)

/-- Python dict lookup on an insertion-ordered association list. -/
def dictGet? {β : Type} : List (Str × β) → Str → Option β
  | [], _ => none
  | (k, v) :: rest, key => if k = key then some v else dictGet? rest key

/-- Python dict assignment: replace in place when the key is present,
append at the end otherwise. -/
def dictSet {β : Type} : List (Str × β) → Str → β → List (Str × β)
  | [], key, v => [(key, v)]
  | (k, w) :: rest, key, v =>
      if k = key then (key, v) :: rest else (k, w) :: dictSet rest key v

/-- The nested dict built by `_metric_map`, with the Python object
references to metrics modelled as indices into the compiler's metric
list. -/
abbrev MMap := List (Str × List (Str × Nat))

/-- One iteration of the `_metric_map` loop: ensure the outer entry for
the column exists, then assign the metric under its metric name. -/
def insertMetric (acc : MMap) (column_name metric_name : Str) (i : Nat) : MMap :=
  dictSet acc column_name
    (dictSet ((dictGet? acc column_name).getD []) metric_name i)

/-- The loop of `MetricCompiler._metric_map`, walking the metric list
and keying each metric by lower-cased column name and metric value. -/
def metric_map_aux : Nat → List Metric → MMap → MMap
  | _, [], acc => acc
  | i, m :: ms, acc =>
      metric_map_aux (i + 1) ms
        (insertMetric acc (m.column_name.map Char.toLower)
          ((MetricType.value m.metric_type).map Char.toLower) i)

/-- `MetricCompiler._metric_map`. -/
def metric_map (metrics : List Metric) : MMap := metric_map_aux 0 metrics []

/-- The nested lookup of `interpret_results`, raising `KeyError` on a
miss at either level. -/
def mapLookup (mmap : MMap) (column_name metric_name : Str) : Except Err Nat :=
  match dictGet? mmap column_name with
  | none => .error (.keyError column_name)
  | some inner =>
      match dictGet? inner metric_name with
      | none => .error (.keyError metric_name)
      | some i => .ok i

/-- A result row: a Python dict from column label to cell value. -/
abbrev Row := List (Str × PyVal)

/-- The result set handed to `interpret_results` (its `rows` field). -/
structure ResultSet where
  rows : List Row
  deriving Repr

/-- Row subscripting with a `KeyError` on a missing key. -/
def rowGet (row : Row) (key : Str) : Except Err PyVal :=
  match dictGet? row key with
  | some v => .ok v
  | none => .error (.keyError key)

/-- The coercion in `interpret_results`: `float` applied to the cell
with only `TypeError` caught (producing `None`); a `ValueError` from a
non-numeric string propagates. -/
def coerceCell (v : PyVal) : Except Err PyVal :=
  match pyFloat v with
  | .ok q => .ok (.vFloat q)
  | .error .typeError => .ok .vNone
  | .error .valueError => .error .valueError

/-- In-place append of a data point to the metric at the given index of
the compiler's list (the Python code mutates the metric object found in
the map; the map stores its index here).  Out of range, the list is
unchanged; the map only ever stores valid indices. -/
def appendAt : List Metric → Nat → MetricDataPoint → List Metric
  | [], _, _ => []
  | m :: ms, 0, p => { m with values := m.values ++ [p] } :: ms
  | m :: ms, i + 1, p => m :: appendAt ms i p

/-- The body of the inner alias loop of `interpret_results`: skip
labels without a double underscore, decode the alias, find the metric,
coerce the cell and append the data point. -/
def processCell (mmap : MMap) (ws we : PyVal) (st : List Metric)
    (cell : Str × PyVal) : Except Err (List Metric) :=
  if hasDD cell.1 = false then .ok st
  else
    match Metric.parse_alias cell.1 with
    | .error e => .error e
    | .ok (column_name, metric_name) =>
        match mapLookup mmap column_name metric_name with
        | .error e => .error e
        | .ok i =>
            match coerceCell cell.2 with
            | .error e => .error e
            | .ok value => .ok (appendAt st i ⟨value, ws, we⟩)

/-- The inner alias loop of `interpret_results` over all keys of a
row. -/
def foldCells (mmap : MMap) (ws we : PyVal) :
    List Metric → List (Str × PyVal) → Except Err (List Metric)
  | st, [] => .ok st
  | st, cell :: rest =>
      match processCell mmap ws we st cell with
      | .error e => .error e
      | .ok st' => foldCells mmap ws we st' rest

/-- The body of the outer row loop: read the three reserved labels
(raising `KeyError` when absent), then walk every key of the row. -/
def processRow (mmap : MMap) (st : List Metric) (row : Row) :
    Except Err (List Metric) :=
  match rowGet row "WINDOW_START".data with
  | .error e => .error e
  | .ok ws =>
      match rowGet row "WINDOW_END".data with
      | .error e => .error e
      | .ok we =>
          match rowGet row "ROW_COUNT".data with
          | .error e => .error e
          | .ok _row_count => foldCells mmap ws we st row

/-- The outer row loop of `interpret_results`. -/
def interpretRows (mmap : MMap) : List Metric → List Row → Except Err (List Metric)
  | st, [] => .ok st
  | st, row :: rest =>
      match processRow mmap st row with
      | .error e => .error e
      | .ok st' => interpretRows mmap st' rest

/-- A placeholder metric for the (never reached) out-of-range index
lookup in `flattenMap`. -/
def dummyMetric : Metric := ⟨[], [], .COMPLETENESS, []⟩

/-- The final flattening loop of `interpret_results`: every inner map
entry contributes the metric object it references, in map order. -/
def flattenMap (st : List Metric) : MMap → List Metric
  | [] => []
  | (_, inner) :: rest =>
      inner.map (fun kv => st.getD kv.2 dummyMetric) ++ flattenMap st rest

/-- `MetricCompiler.interpret_results`: build the metric map from the
current compiler state, walk all rows appending data points, and return
the mutated state together with the flattened map. -/
def interpret_results (st : List Metric) (results : ResultSet) :
    Except Err (List Metric × List Metric) :=
  let mmap := metric_map st
  match interpretRows mmap st results.rows with
  | .error e => .error e
  | .ok st' => .ok (st', flattenMap st' mmap)

/-!
Analysis definitions.  These are not part of the embedding; they
decompose the interpretation loop into the list of appends it performs,
which depends only on the metric map and the rows, never on the stored
values.  The bridging theorems below prove the embedded loop equal to
this decomposition.
-/

/-- The effect of one alias cell, computed without the state: `none`
when the label is skipped, otherwise the metric index and the data point
to append (or the exception raised). -/
def cellStep (mmap : MMap) (ws we : PyVal) (cell : Str × PyVal) :
    Except Err (Option (Nat × MetricDataPoint)) :=
  if hasDD cell.1 = false then .ok none
  else
    match Metric.parse_alias cell.1 with
    | .error e => .error e
    | .ok (column_name, metric_name) =>
        match mapLookup mmap column_name metric_name with
        | .error e => .error e
        | .ok i =>
            match coerceCell cell.2 with
            | .error e => .error e
            | .ok value => .ok (some (i, ⟨value, ws, we⟩))

/-- All appends performed by the alias loop over the cells of one
row. -/
def cellsDeltas (mmap : MMap) (ws we : PyVal) :
    List (Str × PyVal) → Except Err (List (Nat × MetricDataPoint))
  | [] => .ok []
  | cell :: rest =>
      match cellStep mmap ws we cell with
      | .error e => .error e
      | .ok d =>
          match cellsDeltas mmap ws we rest with
          | .error e => .error e
          | .ok ds => .ok (match d with | none => ds | some x => x :: ds)

/-- All appends performed by one row, window lookups included. -/
def rowDeltas (mmap : MMap) (row : Row) :
    Except Err (List (Nat × MetricDataPoint)) :=
  match rowGet row "WINDOW_START".data with
  | .error e => .error e
  | .ok ws =>
      match rowGet row "WINDOW_END".data with
      | .error e => .error e
      | .ok we =>
          match rowGet row "ROW_COUNT".data with
          | .error e => .error e
          | .ok _ => cellsDeltas mmap ws we row

/-- All appends performed over a whole result set. -/
def allDeltas (mmap : MMap) : List Row → Except Err (List (Nat × MetricDataPoint))
  | [] => .ok []
  | row :: rest =>
      match rowDeltas mmap row with
      | .error e => .error e
      | .ok d =>
          match allDeltas mmap rest with
          | .error e => .error e
          | .ok ds => .ok (d ++ ds)

/-- Apply a list of collected appends to a metric list, left to
right. -/
def applyDeltas (st : List Metric) (ds : List (Nat × MetricDataPoint)) : List Metric :=
  ds.foldl (fun s d => appendAt s d.1 d.2) st

/-- Apply one optional collected append. -/
def applyCell (st : List Metric) : Option (Nat × MetricDataPoint) → List Metric
  | none => st
  | some x => appendAt st x.1 x.2

/-- The build-time identity of a metric: its column name and metric
type.  Interpretation mutates only the values, never this pair. -/
def skel (m : Metric) : Str × MetricType := (m.column_name, m.metric_type)

/-- Number of data points stored at an index of the compiler state. -/
def vlen (st : List Metric) (i : Nat) : Nat :=
  ((st.getD i dummyMetric).values).length

/-- How many collected appends target a given index. -/
def countIdx (ds : List (Nat × MetricDataPoint)) (j : Nat) : Nat :=
  (ds.filter (fun d => decide (d.1 = j))).length

/-- Keys of an association list, in order. -/
def dkeys {β : Type} (d : List (Str × β)) : List Str := d.map Prod.fst

/-- The inner map entries produced for one column whose applicable
metric types are `ks`, when its metrics occupy consecutive indices
starting at `n`. -/
def innerEntries : List MetricType → Nat → List (Str × Nat)
  | [], _ => []
  | k :: rest, n => (MetricType.value k, n) :: innerEntries rest (n + 1)

/-- The metric map produced for a column list whose metrics occupy
consecutive indices starting at `n`, provided the lower-cased column
names are pairwise distinct. -/
def colEntries : List Column → Nat → MMap
  | [], _ => []
  | c :: rest, n =>
      (if (MetricType.default_for c.data_type).isEmpty then []
       else [(c.name.map Char.toLower,
              innerEntries (MetricType.default_for c.data_type) n)])
        ++ colEntries rest (n + (MetricType.default_for c.data_type).length)

/-- The metrics referenced at consecutive indices of a state. -/
def getDSeq (st : List Metric) : Nat → Nat → List Metric
  | _, 0 => []
  | n, len + 1 => st.getD n dummyMetric :: getDSeq st (n + 1) len

/-- A concrete monitor fixture used to instantiate theorems on
executable inputs. -/
def wMonitor : TableMetricsMonitor := ⟨"t".data, "ts".data⟩

/-- A concrete one-column (integer) schema fixture. -/
def wColumns : List Column := [⟨"a".data, ColumnDataType.INTEGER⟩]

/-- A concrete result row fixture carrying one metric value. -/
def wRow : Row :=
  [("WINDOW_START".data, .vStr "w0".data), ("WINDOW_END".data, .vStr "w1".data),
   ("ROW_COUNT".data, .vInt 10), ("A__COMPLETENESS".data, .vFloat 1)]

/-- The data point that interpreting `wRow` appends. -/
def wPoint : MetricDataPoint := ⟨.vFloat 1, .vStr "w0".data, .vStr "w1".data⟩

/-- The compiler state after building `wColumns` and interpreting one
`wRow`. -/
def wState1 : List Metric :=
  [⟨"t".data, "a".data, .COMPLETENESS, [wPoint]⟩,
   ⟨"t".data, "a".data, .ZERO_RATE, []⟩,
   ⟨"t".data, "a".data, .NEGATIVE_RATE, []⟩,
   ⟨"t".data, "a".data, .APPROX_DISTINCTNESS, []⟩,
   ⟨"t".data, "a".data, .NUMERIC_MEAN, []⟩,
   ⟨"t".data, "a".data, .NUMERIC_MIN, []⟩,
   ⟨"t".data, "a".data, .NUMERIC_MAX, []⟩,
   ⟨"t".data, "a".data, .NUMERIC_STD, []⟩]

end MetricCompiler

/-!
Helper theorems about characters and separator splitting.
-/

theorem toNat_ofNat_valid {n : Nat} (h : n.isValidChar) : (Char.ofNat n).toNat = n := by
  simp [Char.ofNat, h, Char.ofNatAux, Char.toNat, UInt32.toNat, BitVec.toNat_ofNatLt]

/-- Lower-casing maps a character to the underscore exactly when it is
the underscore (lower-casing only moves basic latin capitals, and those
never map to the underscore). -/
theorem toLower_eq_underscore (a : Char) : Char.toLower a = '_' ↔ a = '_' := by
  constructor
  · intro h
    rw [Char.toLower] at h
    split at h
    · exfalso
      rename_i hr
      have h1 : (Char.ofNat (a.toNat + 32)).toNat = ('_' : Char).toNat := by rw [h]
      have h2 : (Char.ofNat (a.toNat + 32)).toNat = a.toNat + 32 :=
        toNat_ofNat_valid (Or.inl (by omega))
      have h3 : ('_' : Char).toNat = 95 := rfl
      omega
    · exact h
  · intro h; rw [h]; decide

theorem consHead_ne_nil (a : Char) (l : List Str) : consHead a l ≠ [] := by
  cases l <;> simp [consHead]

theorem splitSep_ne_nil (s : Str) : splitSep s ≠ [] := by
  induction s using splitSep.induct with
  | case1 => simp [splitSep]
  | case2 a => simp [splitSep, consHead]
  | case3 a b rest h ih => simp [splitSep, h]
  | case4 a b rest h ih =>
      rw [splitSep, if_neg h]
      exact consHead_ne_nil _ _

/-- Splitting a string of the form `c ++ separator ++ v` detaches `c`
as the first part, provided `c` itself contains no separator and does
not end in an underscore. -/
theorem splitSep_sep_append (c v : Str) (hdd : hasDD c = false)
    (hlast : c.getLast? ≠ some '_') :
    splitSep (c ++ '_' :: '_' :: v) = c :: splitSep v := by
  induction c with
  | nil =>
      show splitSep ('_' :: '_' :: v) = [] :: splitSep v
      rw [splitSep, if_pos ⟨rfl, rfl⟩]
  | cons a rest ih =>
      cases rest with
      | nil =>
          have ha : a ≠ '_' := fun h => hlast (by simp [h])
          show splitSep (a :: '_' :: '_' :: v) = [a] :: splitSep v
          rw [splitSep, if_neg (fun h => ha h.1), splitSep, if_pos ⟨rfl, rfl⟩]
          simp [consHead]
      | cons b rest' =>
          rw [hasDD] at hdd
          simp only [Bool.or_eq_false_iff, decide_eq_false_iff_not] at hdd
          obtain ⟨hab, hdd'⟩ := hdd
          have hlast' : (b :: rest').getLast? ≠ some '_' := by
            rwa [List.getLast?_cons_cons] at hlast
          have ih' := ih hdd' hlast'
          rw [List.cons_append] at ih'
          show splitSep (a :: b :: (rest' ++ '_' :: '_' :: v))
              = (a :: b :: rest') :: splitSep v
          rw [splitSep, if_neg hab, ih']
          simp [consHead]

/-- Splitting commutes with lower-casing, because lower-casing neither
creates nor destroys underscores. -/
theorem splitSep_map_toLower (l : Str) :
    splitSep (l.map Char.toLower) = (splitSep l).map (List.map Char.toLower) := by
  induction l using splitSep.induct with
  | case1 => simp [splitSep]
  | case2 a => simp [splitSep, consHead]
  | case3 a b rest h ih =>
      obtain ⟨ha, hb⟩ := h
      subst ha; subst hb
      have hu : Char.toLower '_' = '_' := by decide
      simp only [List.map_cons, hu]
      rw [splitSep, if_pos ⟨rfl, rfl⟩, splitSep, if_pos ⟨rfl, rfl⟩, ih]
      simp
  | case4 a b rest h ih =>
      have h' : ¬(Char.toLower a = '_' ∧ Char.toLower b = '_') := by
        simp only [toLower_eq_underscore]
        exact h
      simp only [List.map_cons]
      rw [splitSep, if_neg h']
      conv_rhs => rw [splitSep, if_neg h]
      simp only [List.map_cons] at ih
      rw [ih]
      cases hL : splitSep (b :: rest) with
      | nil => exact absurd hL (splitSep_ne_nil _)
      | cons p ps => simp [consHead]

/-- Every metric type value string is already lower-case. -/
theorem metricValue_map_toLower (k : MetricType) :
    (MetricType.value k).map Char.toLower = MetricType.value k := by
  cases k <;> decide

/-- No metric type value string contains the separator. -/
theorem splitSep_metricValue (k : MetricType) :
    splitSep (MetricType.value k) = [MetricType.value k] := by
  cases k <;> decide

/-- Round trip of the alias codec for a lower-case column name with no
separator and no trailing underscore. -/
theorem parse_alias_aliasOf (k : MetricType) (c : Str)
    (hlow : c.map Char.toLower = c) (hdd : hasDD c = false)
    (hlast : c.getLast? ≠ some '_') :
    Metric.parse_alias (Metric.aliasOf c k) = .ok (c, MetricType.value k) := by
  unfold Metric.parse_alias Metric.aliasOf
  have hm : ((c ++ "__".data ++ MetricType.value k).map Char.toLower)
      = c ++ '_' :: '_' :: MetricType.value k := by
    rw [List.map_append, List.map_append, hlow, metricValue_map_toLower]
    rw [List.append_assoc]
    rfl
  rw [hm, splitSep_sep_append c (MetricType.value k) hdd hlast, splitSep_metricValue]
  show Except.ok (c.map Char.toLower, (MetricType.value k).map Char.toLower) = _
  rw [hlow, metricValue_map_toLower]

/-- `parse_alias` succeeds exactly when the split has two parts; the
parts are allowed to be empty. -/
theorem parse_alias_ok_iff (a : Str) :
    (∃ p, Metric.parse_alias a = .ok p) ↔ (splitSep a).length = 2 := by
  unfold Metric.parse_alias
  rw [splitSep_map_toLower]
  cases hL : splitSep a with
  | nil => exact absurd hL (splitSep_ne_nil _)
  | cons p ps =>
      cases ps with
      | nil => simp
      | cons q qs =>
          cases qs with
          | nil => simp
          | cons r rs => simp


/-!
Bridging theorems: the interpretation loop equals the application of the
collected appends, whose computation never reads the stored values.
-/

namespace MetricCompiler

theorem processCell_eq (mmap : MMap) (ws we : PyVal) (st : List Metric)
    (cell : Str × PyVal) :
    processCell mmap ws we st cell = (cellStep mmap ws we cell).map (applyCell st) := by
  unfold processCell cellStep
  split
  · rfl
  · cases hp : Metric.parse_alias cell.1 with
    | error e => rfl
    | ok p =>
        obtain ⟨cn, mn⟩ := p
        simp only []
        cases hl : mapLookup mmap cn mn with
        | error e => simp [Except.map]
        | ok i =>
            simp only []
            cases hc : coerceCell cell.2 with
            | error e => simp [Except.map]
            | ok v => simp [Except.map, applyCell]

theorem foldCells_eq (mmap : MMap) (ws we : PyVal) (cells : List (Str × PyVal)) :
    ∀ st, foldCells mmap ws we st cells
      = (cellsDeltas mmap ws we cells).map (applyDeltas st) := by
  induction cells with
  | nil => intro st; rfl
  | cons cell rest ih =>
      intro st
      rw [foldCells, processCell_eq]
      cases hc : cellStep mmap ws we cell with
      | error e => simp [cellsDeltas, hc, Except.map]
      | ok d =>
          rw [cellsDeltas, hc]
          show foldCells mmap ws we (applyCell st d) rest = _
          rw [ih (applyCell st d)]
          cases hr : cellsDeltas mmap ws we rest with
          | error e => rfl
          | ok ds =>
              show Except.ok (applyDeltas (applyCell st d) ds) = _
              cases d with
              | none => rfl
              | some x => rfl

theorem processRow_eq (mmap : MMap) (st : List Metric) (row : Row) :
    processRow mmap st row = (rowDeltas mmap row).map (applyDeltas st) := by
  unfold processRow rowDeltas
  cases rowGet row "WINDOW_START".data with
  | error e => rfl
  | ok ws =>
      simp only []
      cases rowGet row "WINDOW_END".data with
      | error e => rfl
      | ok we =>
          simp only []
          cases rowGet row "ROW_COUNT".data with
          | error e => rfl
          | ok rc => exact foldCells_eq mmap ws we row st

theorem interpretRows_eq (mmap : MMap) (rows : List Row) :
    ∀ st, interpretRows mmap st rows = (allDeltas mmap rows).map (applyDeltas st) := by
  induction rows with
  | nil => intro st; rfl
  | cons row rest ih =>
      intro st
      rw [interpretRows, processRow_eq]
      cases hr : rowDeltas mmap row with
      | error e => simp [allDeltas, hr, Except.map]
      | ok d =>
          rw [allDeltas, hr]
          show interpretRows mmap (applyDeltas st d) rest = _
          rw [ih (applyDeltas st d)]
          cases ha : allDeltas mmap rest with
          | error e => rfl
          | ok ds =>
              show Except.ok (applyDeltas (applyDeltas st d) ds)
                  = Except.ok (applyDeltas st (d ++ ds))
              rw [applyDeltas, applyDeltas, applyDeltas, List.foldl_append]

theorem length_appendAt (st : List Metric) (i : Nat) (p : MetricDataPoint) :
    (appendAt st i p).length = st.length := by
  induction st generalizing i with
  | nil => rfl
  | cons m ms ih =>
      cases i with
      | zero => rfl
      | succ i' => simp [appendAt, ih]

theorem skel_appendAt (st : List Metric) (i : Nat) (p : MetricDataPoint) :
    (appendAt st i p).map skel = st.map skel := by
  induction st generalizing i with
  | nil => rfl
  | cons m ms ih =>
      cases i with
      | zero => simp [appendAt, skel]
      | succ i' => simp [appendAt, ih]

theorem applyDeltas_cons (st : List Metric) (d : Nat × MetricDataPoint)
    (ds : List (Nat × MetricDataPoint)) :
    applyDeltas st (d :: ds) = applyDeltas (appendAt st d.1 d.2) ds := rfl

theorem length_applyDeltas (ds : List (Nat × MetricDataPoint)) :
    ∀ st : List Metric, (applyDeltas st ds).length = st.length := by
  induction ds with
  | nil => intro st; rfl
  | cons d rest ih =>
      intro st
      rw [applyDeltas_cons, ih, length_appendAt]

theorem skel_applyDeltas (ds : List (Nat × MetricDataPoint)) :
    ∀ st : List Metric, (applyDeltas st ds).map skel = st.map skel := by
  induction ds with
  | nil => intro st; rfl
  | cons d rest ih =>
      intro st
      rw [applyDeltas_cons, ih, skel_appendAt]

theorem vlen_nil (i : Nat) : vlen [] i = 0 := by cases i <;> rfl

theorem vlen_cons_zero (m : Metric) (ms : List Metric) :
    vlen (m :: ms) 0 = m.values.length := rfl

theorem vlen_cons_succ (m : Metric) (ms : List Metric) (j : Nat) :
    vlen (m :: ms) (j + 1) = vlen ms j := rfl

theorem vlen_appendAt (st : List Metric) (i : Nat) (p : MetricDataPoint) (j : Nat) :
    vlen (appendAt st i p) j = vlen st j + (if j = i ∧ j < st.length then 1 else 0) := by
  induction st generalizing i j with
  | nil => simp [appendAt, vlen_nil]
  | cons m ms ih =>
      cases i with
      | zero =>
          cases j with
          | zero => simp [appendAt, vlen_cons_zero]
          | succ j' => simp [appendAt, vlen_cons_succ]
      | succ i' =>
          cases j with
          | zero => simp [appendAt, vlen_cons_zero]
          | succ j' =>
              show vlen (m :: appendAt ms i' p) (j' + 1) = _
              rw [vlen_cons_succ, vlen_cons_succ, ih i' j']
              congr 1
              have hiff : (j' + 1 = i' + 1 ∧ j' + 1 < (m :: ms).length)
                  ↔ (j' = i' ∧ j' < ms.length) := by
                simp only [List.length_cons]
                omega
              simp [hiff]

theorem vlen_ge (st : List Metric) (j : Nat) (h : st.length ≤ j) : vlen st j = 0 := by
  rw [vlen, List.getD_eq_default _ _ h]
  rfl

theorem countIdx_cons (d : Nat × MetricDataPoint) (ds : List (Nat × MetricDataPoint))
    (j : Nat) :
    countIdx (d :: ds) j = (if d.1 = j then 1 else 0) + countIdx ds j := by
  by_cases h : d.1 = j <;> simp [countIdx, List.filter, h, Nat.add_comm]

theorem vlen_applyDeltas (ds : List (Nat × MetricDataPoint)) :
    ∀ (st : List Metric) (j : Nat), j < st.length →
      vlen (applyDeltas st ds) j = vlen st j + countIdx ds j := by
  induction ds with
  | nil => intro st j h; simp [applyDeltas, countIdx]
  | cons d rest ih =>
      intro st j hj
      rw [applyDeltas_cons, ih _ j (by rw [length_appendAt]; exact hj)]
      rw [vlen_appendAt, countIdx_cons]
      by_cases hc : j = d.1
      · rw [if_pos ⟨hc, hj⟩, if_pos hc.symm]
        omega
      · rw [if_neg (fun hh => hc hh.1), if_neg (fun hh => hc hh.symm)]
        omega

theorem create_metrics_values (t : Str) (cols : List Column) :
    ∀ m ∈ create_metrics t cols, m.values = [] := by
  induction cols with
  | nil => intro m hm; simp [create_metrics] at hm
  | cons c rest ih =>
      intro m hm
      rw [create_metrics] at hm
      rcases List.mem_append.mp hm with h | h
      · obtain ⟨mt, _, rfl⟩ := List.mem_map.mp h
        rfl
      · exact ih m h

theorem vlen_create (t : Str) (cols : List Column) (j : Nat) :
    vlen (create_metrics t cols) j = 0 := by
  by_cases h : j < (create_metrics t cols).length
  · rw [vlen, List.getD_eq_getElem _ _ h,
        create_metrics_values t cols _ (List.getElem_mem h)]
    rfl
  · exact vlen_ge _ _ (by omega)

theorem metric_map_aux_congr : ∀ ms ms' : List Metric, ms.map skel = ms'.map skel →
    ∀ n (acc : MMap), metric_map_aux n ms acc = metric_map_aux n ms' acc := by
  intro ms
  induction ms with
  | nil =>
      intro ms' h n acc
      cases ms' with
      | nil => rfl
      | cons => simp at h
  | cons m rest ih =>
      intro ms' h n acc
      cases ms' with
      | nil => simp at h
      | cons m' rest' =>
          simp only [List.map_cons, List.cons.injEq] at h
          obtain ⟨h1, h2⟩ := h
          rw [metric_map_aux, metric_map_aux]
          have hc : m.column_name = m'.column_name := congrArg Prod.fst h1
          have ht : m.metric_type = m'.metric_type := congrArg Prod.snd h1
          rw [hc, ht]
          exact ih rest' h2 (n + 1) _

theorem metric_map_applyDeltas (st : List Metric) (ds : List (Nat × MetricDataPoint)) :
    metric_map (applyDeltas st ds) = metric_map st :=
  metric_map_aux_congr _ _ (skel_applyDeltas ds st) 0 []

theorem interpret_results_eq (st : List Metric) (results : ResultSet) :
    interpret_results st results =
      match allDeltas (metric_map st) results.rows with
      | .error e => .error e
      | .ok ds => .ok (applyDeltas st ds, flattenMap (applyDeltas st ds) (metric_map st)) := by
  unfold interpret_results
  show (match interpretRows (metric_map st) st results.rows with
        | Except.error e => Except.error e
        | Except.ok st' => Except.ok (st', flattenMap st' (metric_map st))) = _
  rw [interpretRows_eq]
  cases allDeltas (metric_map st) results.rows <;> rfl

end MetricCompiler


/-!
Association-list (Python dict) theorems and the structure of the metric
map built from a freshly compiled metric list.
-/

namespace MetricCompiler

theorem dkeys_cons {β : Type} (e : Str × β) (d : List (Str × β)) :
    dkeys (e :: d) = e.1 :: dkeys d := rfl

theorem dkeys_append {β : Type} (d1 d2 : List (Str × β)) :
    dkeys (d1 ++ d2) = dkeys d1 ++ dkeys d2 := List.map_append _ _ _

theorem dictGet?_none {β : Type} (d : List (Str × β)) (k : Str) (h : k ∉ dkeys d) :
    dictGet? d k = none := by
  induction d with
  | nil => rfl
  | cons e rest ih =>
      obtain ⟨k', v⟩ := e
      rw [dkeys_cons, List.mem_cons] at h
      push_neg at h
      rw [dictGet?, if_neg (fun hh => h.1 hh.symm), ih h.2]

theorem dictSet_fresh {β : Type} (d : List (Str × β)) (k : Str) (v : β)
    (h : k ∉ dkeys d) : dictSet d k v = d ++ [(k, v)] := by
  induction d with
  | nil => rfl
  | cons e rest ih =>
      obtain ⟨k', w⟩ := e
      rw [dkeys_cons, List.mem_cons] at h
      push_neg at h
      rw [dictSet, if_neg (fun hh => h.1 hh.symm), ih h.2]
      rfl

theorem dictGet?_append_right {β : Type} (d : List (Str × β)) (k : Str) (v : β)
    (h : k ∉ dkeys d) : dictGet? (d ++ [(k, v)]) k = some v := by
  induction d with
  | nil => simp [dictGet?]
  | cons e rest ih =>
      obtain ⟨k', w⟩ := e
      rw [dkeys_cons, List.mem_cons] at h
      push_neg at h
      rw [List.cons_append, dictGet?, if_neg (fun hh => h.1 hh.symm), ih h.2]

theorem dictSet_append_right {β : Type} (d : List (Str × β)) (k : Str) (w v : β)
    (h : k ∉ dkeys d) : dictSet (d ++ [(k, w)]) k v = d ++ [(k, v)] := by
  induction d with
  | nil => simp [dictSet]
  | cons e rest ih =>
      obtain ⟨k', u⟩ := e
      rw [dkeys_cons, List.mem_cons] at h
      push_neg at h
      rw [List.cons_append, dictSet, if_neg (fun hh => h.1 hh.symm), ih h.2]
      rfl

theorem insertMetric_fresh (acc : MMap) (cn mn : Str) (i : Nat)
    (h : cn ∉ dkeys acc) :
    insertMetric acc cn mn i = acc ++ [(cn, [(mn, i)])] := by
  rw [insertMetric, dictGet?_none acc cn h]
  rw [show (Option.getD (none : Option (List (Str × Nat))) []) = [] from rfl]
  rw [show dictSet ([] : List (Str × Nat)) mn i = [(mn, i)] from rfl]
  exact dictSet_fresh acc cn _ h

theorem insertMetric_last (acc : MMap) (cn mn : Str) (inner : List (Str × Nat)) (i : Nat)
    (h : cn ∉ dkeys acc) :
    insertMetric (acc ++ [(cn, inner)]) cn mn i = acc ++ [(cn, dictSet inner mn i)] := by
  rw [insertMetric, dictGet?_append_right acc cn inner h]
  rw [show (Option.getD (some inner) []) = inner from rfl]
  exact dictSet_append_right acc cn inner _ h

/-- The value strings of the kinds applicable to any category are
pairwise distinct. -/
theorem default_for_values_nodup (dt : ColumnDataType) :
    ((MetricType.default_for dt).map MetricType.value).Nodup := by
  cases dt <;> decide

theorem metric_map_aux_kinds (t cname : Str) (ks : List MetricType) :
    ∀ (n : Nat) (acc : MMap) (inner : List (Str × Nat)),
      (cname.map Char.toLower) ∉ dkeys acc →
      (∀ k ∈ ks, MetricType.value k ∉ dkeys inner) →
      (ks.map MetricType.value).Nodup →
      metric_map_aux n (ks.map (fun mt => ⟨t, cname, mt, []⟩))
          (acc ++ [(cname.map Char.toLower, inner)])
        = acc ++ [(cname.map Char.toLower, inner ++ innerEntries ks n)] := by
  induction ks with
  | nil =>
      intro n acc inner h1 h2 h3
      rw [List.map_nil, metric_map_aux, innerEntries, List.append_nil]
  | cons k rest ih =>
      intro n acc inner h1 h2 h3
      rw [List.map_cons, metric_map_aux]
      show metric_map_aux (n + 1) (rest.map (fun mt => ⟨t, cname, mt, []⟩))
          (insertMetric (acc ++ [(cname.map Char.toLower, inner)])
            (cname.map Char.toLower) ((MetricType.value k).map Char.toLower) n) = _
      rw [metricValue_map_toLower,
          insertMetric_last acc _ _ inner n h1,
          dictSet_fresh inner (MetricType.value k) n (h2 k (List.mem_cons_self k rest))]
      rw [List.map_cons, List.nodup_cons] at h3
      have h2' : ∀ k' ∈ rest,
          MetricType.value k' ∉ dkeys (inner ++ [(MetricType.value k, n)]) := by
        intro k' hk'
        rw [dkeys_append, List.mem_append]
        push_neg
        constructor
        · exact h2 k' (List.mem_cons_of_mem k hk')
        · intro hmem
          simp only [dkeys, List.map_cons, List.map_nil, List.mem_singleton] at hmem
          exact h3.1 (hmem ▸ List.mem_map_of_mem MetricType.value hk')
      rw [ih (n + 1) acc (inner ++ [(MetricType.value k, n)]) h1 h2' h3.2]
      rw [List.append_assoc]
      rfl

theorem metric_map_aux_append (xs ys : List Metric) : ∀ (n : Nat) (acc : MMap),
    metric_map_aux n (xs ++ ys) acc
      = metric_map_aux (n + xs.length) ys (metric_map_aux n xs acc) := by
  induction xs with
  | nil => intro n acc; simp [metric_map_aux]
  | cons m rest ih =>
      intro n acc
      rw [List.cons_append, metric_map_aux, ih (n + 1), metric_map_aux]
      have hidx : n + 1 + rest.length = n + (m :: rest).length := by
        simp [List.length_cons]
        omega
      rw [hidx]

theorem metric_map_aux_column (t : Str) (c : Column) (n : Nat) (acc : MMap)
    (hfresh : (c.name.map Char.toLower) ∉ dkeys acc) :
    metric_map_aux n
        ((MetricType.default_for c.data_type).map (fun mt => ⟨t, c.name, mt, []⟩)) acc
      = acc ++ (if (MetricType.default_for c.data_type).isEmpty then []
                else [(c.name.map Char.toLower,
                       innerEntries (MetricType.default_for c.data_type) n)]) := by
  have hnd := default_for_values_nodup c.data_type
  cases hks : MetricType.default_for c.data_type with
  | nil => simp [metric_map_aux]
  | cons k rest =>
      rw [hks] at hnd
      rw [List.map_cons, metric_map_aux]
      show metric_map_aux (n + 1) (rest.map (fun mt => ⟨t, c.name, mt, []⟩))
          (insertMetric acc (c.name.map Char.toLower)
            ((MetricType.value k).map Char.toLower) n) = _
      rw [metricValue_map_toLower, insertMetric_fresh acc _ _ n hfresh]
      rw [List.map_cons, List.nodup_cons] at hnd
      have h2 : ∀ k' ∈ rest, MetricType.value k' ∉ dkeys [(MetricType.value k, n)] := by
        intro k' hk' hmem
        simp only [dkeys, List.map_cons, List.map_nil, List.mem_singleton] at hmem
        exact hnd.1 (hmem ▸ List.mem_map_of_mem MetricType.value hk')
      have := metric_map_aux_kinds t c.name rest (n + 1) acc [(MetricType.value k, n)]
        hfresh h2 hnd.2
      rw [this]
      rw [List.isEmpty_cons]
      simp only [Bool.false_eq_true, if_false]
      rfl

theorem metric_map_aux_create (t : Str) : ∀ (cols : List Column) (n : Nat) (acc : MMap),
    (∀ c ∈ cols, (c.name.map Char.toLower) ∉ dkeys acc) →
    (cols.map (fun c => c.name.map Char.toLower)).Nodup →
    metric_map_aux n (create_metrics t cols) acc = acc ++ colEntries cols n := by
  intro cols
  induction cols with
  | nil => intro n acc h1 h2; simp [create_metrics, metric_map_aux, colEntries]
  | cons c rest ih =>
      intro n acc h1 h2
      rw [create_metrics, metric_map_aux_append,
          metric_map_aux_column t c n acc (h1 c (List.mem_cons_self c rest))]
      rw [List.map_cons, List.nodup_cons] at h2
      have hfresh' : ∀ c' ∈ rest, (c'.name.map Char.toLower) ∉ dkeys
          (acc ++ (if (MetricType.default_for c.data_type).isEmpty then []
                   else [(c.name.map Char.toLower,
                          innerEntries (MetricType.default_for c.data_type) n)])) := by
        intro c' hc'
        rw [dkeys_append, List.mem_append]
        push_neg
        refine ⟨h1 c' (List.mem_cons_of_mem c hc'), ?_⟩
        intro hmem
        cases hif : (MetricType.default_for c.data_type).isEmpty with
        | true => rw [hif] at hmem; simp [dkeys] at hmem
        | false =>
            rw [hif] at hmem
            simp only [Bool.false_eq_true, if_false, dkeys, List.map_cons, List.map_nil,
              List.mem_singleton] at hmem
            exact h2.1 (hmem ▸ List.mem_map_of_mem (fun c => c.name.map Char.toLower) hc')
      rw [List.length_map, ih (n + (MetricType.default_for c.data_type).length) _ hfresh' h2.2]
      rw [List.append_assoc]
      rfl

theorem flattenMap_append (st : List Metric) (m1 m2 : MMap) :
    flattenMap st (m1 ++ m2) = flattenMap st m1 ++ flattenMap st m2 := by
  induction m1 with
  | nil => rfl
  | cons e rest ih =>
      obtain ⟨k, inner⟩ := e
      rw [List.cons_append, flattenMap, flattenMap, ih, List.append_assoc]

theorem map_innerEntries (st : List Metric) (ks : List MetricType) : ∀ n : Nat,
    (innerEntries ks n).map (fun kv => st.getD kv.2 dummyMetric)
      = getDSeq st n ks.length := by
  induction ks with
  | nil => intro n; rfl
  | cons k rest ih =>
      intro n
      rw [innerEntries, List.map_cons, List.length_cons, getDSeq, ih (n + 1)]

theorem getDSeq_add (st : List Metric) (a b : Nat) : ∀ n : Nat,
    getDSeq st n (a + b) = getDSeq st n a ++ getDSeq st (n + a) b := by
  induction a with
  | zero => intro n; simp [getDSeq]
  | succ a' ih =>
      intro n
      have h1 : a' + 1 + b = (a' + b) + 1 := by omega
      rw [h1, getDSeq, getDSeq, ih (n + 1), List.cons_append]
      have h2 : n + 1 + a' = n + (a' + 1) := by omega
      rw [h2]

theorem flattenMap_colEntries (st : List Metric) (t : Str) :
    ∀ (cols : List Column) (n : Nat),
      flattenMap st (colEntries cols n) = getDSeq st n (create_metrics t cols).length := by
  intro cols
  induction cols with
  | nil => intro n; rfl
  | cons c rest ih =>
      intro n
      rw [colEntries, flattenMap_append]
      rw [create_metrics, List.length_append, List.length_map]
      rw [getDSeq_add st _ _ n, ih (n + (MetricType.default_for c.data_type).length)]
      congr 1
      cases hif : (MetricType.default_for c.data_type).isEmpty with
      | true =>
          have h0 : (MetricType.default_for c.data_type).length = 0 :=
            List.isEmpty_iff_length_eq_zero.mp hif
          rw [h0]
          rfl
      | false =>
          simp only [flattenMap]
          rw [map_innerEntries, List.append_nil]

theorem getDSeq_full : ∀ (len : Nat) (st : List Metric) (n : Nat),
    st.length = n + len → getDSeq st n len = st.drop n := by
  intro len
  induction len with
  | zero =>
      intro st n h
      rw [getDSeq, List.drop_eq_nil_of_le (by omega)]
  | succ len' ih =>
      intro st n h
      have hn : n < st.length := by omega
      rw [getDSeq, ih st (n + 1) (by omega), List.getD_eq_getElem st dummyMetric hn,
          List.drop_eq_getElem_cons hn]

/-- The number of metrics compiled is the sum over columns of the
number of applicable kinds. -/
theorem create_metrics_length (t : Str) (cols : List Column) :
    (create_metrics t cols).length
      = (cols.map (fun c => (MetricType.default_for c.data_type).length)).sum := by
  induction cols with
  | nil => rfl
  | cons c rest ih =>
      rw [create_metrics, List.length_append, List.length_map, List.map_cons,
          List.sum_cons, ih]

/-- Every column with a nonempty applicable kind list contributes at
least one compiled metric carrying its name. -/
theorem create_metrics_mem_column (t : Str) (cols : List Column) (c : Column)
    (hc : c ∈ cols) (hne : MetricType.default_for c.data_type ≠ []) :
    ∃ m ∈ create_metrics t cols, m.column_name = c.name := by
  induction cols with
  | nil => cases hc
  | cons c0 rest ih =>
      rw [create_metrics]
      rcases List.mem_cons.mp hc with rfl | hmem
      · obtain ⟨mt, hmt⟩ := List.exists_mem_of_ne_nil _ hne
        exact ⟨⟨t, c.name, mt, []⟩,
          List.mem_append_left _ (List.mem_map_of_mem _ hmt), rfl⟩
      · obtain ⟨m, hm, he⟩ := ih hmem
        exact ⟨m, List.mem_append_right _ hm, he⟩

end MetricCompiler

/-- Reading an index of a mapped list through a default that the
function fixes. -/
theorem getD_map_fixed {α : Type} (f : α → α) (d : α) (hf : f d = d) :
    ∀ (l : List α) (i : Nat), (l.map f).getD i d = f (l.getD i d) := by
  intro l
  induction l with
  | nil => intro i; cases i <;> simp [hf]
  | cons a rest ih =>
      intro i
      cases i with
      | zero => rfl
      | succ i' => simpa using ih i'


/-!
Claim theorems.
-/

/-- Claim C1 (code bug in the source): a non-numeric text cell makes
`interpret_results` raise an uncaught `ValueError` instead of appending
a data point with an absent value — the source catches only
`TypeError`, so only cells such as `None` are recovered.  The first
conjunct evaluates the failing input; the second shows a `None` cell
being recovered as an absent value exactly as the claim describes. -/
theorem c1_text_coercion_raises :
    MetricCompiler.interpret_results
        (MetricCompiler.create_metrics "t".data [⟨"a".data, ColumnDataType.INTEGER⟩])
        ⟨[[("WINDOW_START".data, PyVal.vStr "w0".data),
           ("WINDOW_END".data, PyVal.vStr "w1".data),
           ("ROW_COUNT".data, PyVal.vInt 10),
           ("A__COMPLETENESS".data, PyVal.vStr "abc".data)]]⟩
      = .error Err.valueError
    ∧ (MetricCompiler.interpret_results
        (MetricCompiler.create_metrics "t".data [⟨"a".data, ColumnDataType.INTEGER⟩])
        ⟨[[("WINDOW_START".data, PyVal.vStr "w0".data),
           ("WINDOW_END".data, PyVal.vStr "w1".data),
           ("ROW_COUNT".data, PyVal.vInt 10),
           ("A__COMPLETENESS".data, PyVal.vNone)]]⟩).map
        (fun p => p.1.map Metric.values)
      = .ok [[⟨PyVal.vNone, PyVal.vStr "w0".data, PyVal.vStr "w1".data⟩],
             [], [], [], [], [], [], []] :=
  ⟨by decide, by decide⟩

/-- Claim C2 (refuted at a concrete input): compiling a single column
literally named `row_count` of integer category produces eight metrics,
every one of them carrying that column name, so `build_query` excludes
no reserved-named column. -/
theorem c2_counterexample :
    ((MetricCompiler.build_query MetricCompiler.wMonitor
        [⟨"row_count".data, ColumnDataType.INTEGER⟩]).1).length = 8
    ∧ ((MetricCompiler.build_query MetricCompiler.wMonitor
        [⟨"row_count".data, ColumnDataType.INTEGER⟩]).1).map Metric.column_name
      = List.replicate 8 "row_count".data :=
  ⟨by decide, by decide⟩

/-- Claim C2 (amended): `build_query` creates metrics for every column
according to its data category and performs no filtering by column
name: the metric count is the full sum over all columns, and every
column with a nonempty applicable kind list — reserved names
`window_start`, `window_end` and `row_count` included — contributes a
metric carrying its name.  The `SPECIAL_KEYS` filter exists only in the
never-called helper modelled by `columns_to_metrics`. -/
theorem c2_amended_no_column_exclusion (monitor : TableMetricsMonitor)
    (columns : List Column) :
    ((MetricCompiler.build_query monitor columns).1).length
      = (columns.map (fun c => (MetricType.default_for c.data_type).length)).sum
    ∧ ∀ c ∈ columns, MetricType.default_for c.data_type ≠ [] →
        ∃ m ∈ (MetricCompiler.build_query monitor columns).1,
          m.column_name = c.name := by
  refine ⟨MetricCompiler.create_metrics_length monitor.table columns, ?_⟩
  intro c hc hne
  exact MetricCompiler.create_metrics_mem_column monitor.table columns c hc hne

/-- Witness for the amended C2 at the concrete `row_count` column. -/
theorem c2_witness :
    ∃ m ∈ (MetricCompiler.build_query MetricCompiler.wMonitor
        [⟨"row_count".data, ColumnDataType.INTEGER⟩]).1,
      m.column_name = "row_count".data :=
  (c2_amended_no_column_exclusion MetricCompiler.wMonitor
      [⟨"row_count".data, ColumnDataType.INTEGER⟩]).2
    ⟨"row_count".data, ColumnDataType.INTEGER⟩ (by decide) (by decide)

/-- Claim C3 (code bug in the source): for kind NUMERIC_MIN the
dispatcher renders the mean template AVG — the MIN template defined by
`Metric.numeric_min` is never dispatched — while NUMERIC_MEAN and
NUMERIC_MAX render AVG and MAX as the claim states. -/
theorem c3_numeric_min_renders_avg :
    Metric.pyFormat1 (Metric.retrieve_unformatted_sql MetricType.NUMERIC_MIN) "c".data
      = "AVG(c)".data
    ∧ Metric.pyFormat1 (Metric.retrieve_unformatted_sql MetricType.NUMERIC_MIN) "c".data
      ≠ Metric.pyFormat1 Metric.numeric_min "c".data
    ∧ Metric.pyFormat1 Metric.numeric_min "c".data = "MIN(c)".data
    ∧ Metric.pyFormat1 (Metric.retrieve_unformatted_sql MetricType.NUMERIC_MEAN) "c".data
      = "AVG(c)".data
    ∧ Metric.pyFormat1 (Metric.retrieve_unformatted_sql MetricType.NUMERIC_MAX) "c".data
      = "MAX(c)".data := by
  refine ⟨by decide, by decide, by decide, by decide, by decide⟩

/-- Claim C4 (refuted at concrete inputs): decoding lower-cases, so an
upper-case column name comes back changed; and a name with a trailing
underscore merges into the separator, shifting the split.  The last two
conjuncts exhibit what decoding actually returns. -/
theorem c4_counterexample :
    Metric.parse_alias (Metric.aliasOf "A".data MetricType.COMPLETENESS)
      ≠ .ok ("A".data, MetricType.value MetricType.COMPLETENESS)
    ∧ Metric.parse_alias (Metric.aliasOf "a_".data MetricType.COMPLETENESS)
      ≠ .ok ("a_".data, MetricType.value MetricType.COMPLETENESS)
    ∧ Metric.parse_alias (Metric.aliasOf "A".data MetricType.COMPLETENESS)
      = .ok ("a".data, MetricType.value MetricType.COMPLETENESS)
    ∧ Metric.parse_alias (Metric.aliasOf "a_".data MetricType.COMPLETENESS)
      = .ok ("a".data, "_".data ++ MetricType.value MetricType.COMPLETENESS) :=
  ⟨by decide, by decide, by decide, by decide⟩

/-- Claim C4 (amended): for every metric kind and every column name
that is already lower-case, contains no separator substring, and does
not end in an underscore, decoding the alias built from the pair
returns exactly the pair of the column name and the kind's value
string. -/
theorem c4_amended_roundtrip (k : MetricType) (c : Str)
    (hlow : c.map Char.toLower = c) (hdd : hasDD c = false)
    (hlast : c.getLast? ≠ some '_') :
    Metric.parse_alias (Metric.aliasOf c k) = .ok (c, MetricType.value k) :=
  parse_alias_aliasOf k c hlow hdd hlast

/-- Witness for the amended C4 at a concrete column name with an inner
underscore. -/
theorem c4_witness :
    Metric.parse_alias (Metric.aliasOf "user_id".data MetricType.COMPLETENESS)
      = .ok ("user_id".data, MetricType.value MetricType.COMPLETENESS) :=
  c4_amended_roundtrip MetricType.COMPLETENESS "user_id".data
    (by decide) (by decide) (by decide)

/-- Claim C5 (refuted at a concrete input): the alias consisting of the
bare separator splits into two empty parts, and `parse_alias` succeeds
on it, where the claim demands failure when a part is empty. -/
theorem c5_counterexample :
    Metric.parse_alias "__".data = .ok (([] : Str), ([] : Str))
    ∧ splitSep "__".data = [([] : Str), ([] : Str)] :=
  ⟨by decide, by decide⟩

/-- Claim C5 (amended): `parse_alias` succeeds exactly when splitting
the alias on the separator yields exactly two parts; the parts may be
empty (the source checks only the number of parts). -/
theorem c5_amended_success_iff_two_parts (a : Str) :
    (∃ p, Metric.parse_alias a = .ok p) ↔ (splitSep a).length = 2 :=
  parse_alias_ok_iff a

/-- Claim C6: `default_for` returns exactly the fixed 12-kind list for
the string category, exactly the fixed 8-kind list for the integer
category, and the empty list for the remaining category, without any
error. -/
theorem c6_default_for_exact :
    MetricType.default_for ColumnDataType.STRING
      = [MetricType.COMPLETENESS, MetricType.APPROX_DISTINCT_COUNT,
         MetricType.APPROX_DISTINCTNESS, MetricType.MEAN_LENGTH,
         MetricType.MAX_LENGTH, MetricType.MIN_LENGTH, MetricType.STD_LENGTH,
         MetricType.TEXT_INT_RATE, MetricType.TEXT_NUMBER_RATE,
         MetricType.TEXT_UUID_RATE, MetricType.TEXT_ALL_SPACES_RATE,
         MetricType.TEXT_NULL_KEYWORD_RATE]
    ∧ (MetricType.default_for ColumnDataType.STRING).length = 12
    ∧ MetricType.default_for ColumnDataType.INTEGER
      = [MetricType.COMPLETENESS, MetricType.ZERO_RATE, MetricType.NEGATIVE_RATE,
         MetricType.APPROX_DISTINCTNESS, MetricType.NUMERIC_MEAN,
         MetricType.NUMERIC_MIN, MetricType.NUMERIC_MAX, MetricType.NUMERIC_STD]
    ∧ (MetricType.default_for ColumnDataType.INTEGER).length = 8
    ∧ MetricType.default_for ColumnDataType.OTHER = [] := by
  refine ⟨by decide, by decide, by decide, by decide, by decide⟩

/-- Claim C7: the SQL expression rendered for ZERO_RATE is identical,
for every column name, to the one rendered for TEXT_NULL_KEYWORD_RATE
(the source repeats the null-keyword template under zero-rate). -/
theorem c7_zero_rate_eq_null_keyword_rate (c : Str) :
    Metric.pyFormat1 (Metric.retrieve_unformatted_sql MetricType.ZERO_RATE) c
      = Metric.pyFormat1 (Metric.retrieve_unformatted_sql MetricType.TEXT_NULL_KEYWORD_RATE) c :=
  rfl

/-- Claim C8: `interpret_results` is not idempotent.  When a first
interpretation of a result set over a freshly built compiler state
succeeds, interpreting the same rows again on the resulting state also
succeeds, appends every data point a second time, and leaves every
metric with exactly twice the points it had after the first call. -/
theorem c8_interpret_twice_doubles (monitor : TableMetricsMonitor)
    (columns : List Column) (rows : List MetricCompiler.Row)
    (st1 r1 : List Metric)
    (h1 : MetricCompiler.interpret_results
        (MetricCompiler.build_query monitor columns).1 ⟨rows⟩ = .ok (st1, r1)) :
    ∃ st2 r2, MetricCompiler.interpret_results st1 ⟨rows⟩ = .ok (st2, r2) ∧
      st2.length = st1.length ∧
      ∀ j, MetricCompiler.vlen st2 j = 2 * MetricCompiler.vlen st1 j := by
  have hst0 : (MetricCompiler.build_query monitor columns).1
      = MetricCompiler.create_metrics monitor.table columns := rfl
  rw [MetricCompiler.interpret_results_eq] at h1
  cases hD : MetricCompiler.allDeltas
      (MetricCompiler.metric_map (MetricCompiler.build_query monitor columns).1) rows with
  | error e => rw [hD] at h1; cases h1
  | ok D =>
      rw [hD] at h1
      simp only [Except.ok.injEq, Prod.mk.injEq] at h1
      obtain ⟨hst1, hr1⟩ := h1
      have hmm1 : MetricCompiler.metric_map st1
          = MetricCompiler.metric_map (MetricCompiler.build_query monitor columns).1 := by
        rw [← hst1, MetricCompiler.metric_map_applyDeltas]
      refine ⟨MetricCompiler.applyDeltas st1 D,
        MetricCompiler.flattenMap (MetricCompiler.applyDeltas st1 D)
          (MetricCompiler.metric_map st1), ?_, ?_, ?_⟩
      · rw [MetricCompiler.interpret_results_eq]
        simp only [hmm1, hD]
      · exact MetricCompiler.length_applyDeltas D st1
      · intro j
        by_cases hj : j < st1.length
        · have hj0 : j < ((MetricCompiler.build_query monitor columns).1).length := by
            rw [← hst1, MetricCompiler.length_applyDeltas] at hj
            exact hj
          have h1v : MetricCompiler.vlen st1 j = MetricCompiler.countIdx D j := by
            rw [← hst1, MetricCompiler.vlen_applyDeltas D _ j hj0, hst0,
                MetricCompiler.vlen_create]
            omega
          rw [MetricCompiler.vlen_applyDeltas D st1 j hj, h1v]
          omega
        · have h2 : MetricCompiler.vlen (MetricCompiler.applyDeltas st1 D) j = 0 :=
            MetricCompiler.vlen_ge _ _ (by rw [MetricCompiler.length_applyDeltas]; omega)
          have h3 : MetricCompiler.vlen st1 j = 0 := MetricCompiler.vlen_ge _ _ (by omega)
          omega

/-- Witness for C8 on the concrete one-column build and one-row result
set: the second interpretation succeeds and doubles every count. -/
theorem c8_witness :
    ∃ st2 r2, MetricCompiler.interpret_results MetricCompiler.wState1
        ⟨[MetricCompiler.wRow]⟩ = .ok (st2, r2) ∧
      st2.length = MetricCompiler.wState1.length ∧
      ∀ j, MetricCompiler.vlen st2 j = 2 * MetricCompiler.vlen MetricCompiler.wState1 j :=
  c8_interpret_twice_doubles MetricCompiler.wMonitor MetricCompiler.wColumns
    [MetricCompiler.wRow] MetricCompiler.wState1 MetricCompiler.wState1 (by decide)

/-- Claim C9: when the lower-cased column names are pairwise distinct,
a successful `interpret_results` on the state built by `build_query`
returns exactly the compiler's metric list itself — every built metric
exactly once, in order, with its build-time column name and kind
unchanged, no metric added or lost — whatever the rows contained. -/
theorem c9_interpret_returns_build (monitor : TableMetricsMonitor)
    (columns : List Column) (rows : List MetricCompiler.Row)
    (st' ret : List Metric)
    (hnodup : (columns.map (fun c => c.name.map Char.toLower)).Nodup)
    (h : MetricCompiler.interpret_results
        (MetricCompiler.build_query monitor columns).1 ⟨rows⟩ = .ok (st', ret)) :
    ret = st' ∧ st'.length = ((MetricCompiler.build_query monitor columns).1).length ∧
      st'.map MetricCompiler.skel
        = ((MetricCompiler.build_query monitor columns).1).map MetricCompiler.skel := by
  have hst0 : (MetricCompiler.build_query monitor columns).1
      = MetricCompiler.create_metrics monitor.table columns := rfl
  have hmm : MetricCompiler.metric_map (MetricCompiler.build_query monitor columns).1
      = MetricCompiler.colEntries columns 0 := by
    rw [hst0, MetricCompiler.metric_map]
    rw [MetricCompiler.metric_map_aux_create monitor.table columns 0 []
      (by intro c hc; simp [MetricCompiler.dkeys]) hnodup]
    rfl
  rw [MetricCompiler.interpret_results_eq] at h
  cases hD : MetricCompiler.allDeltas
      (MetricCompiler.metric_map (MetricCompiler.build_query monitor columns).1) rows with
  | error e => rw [hD] at h; cases h
  | ok D =>
      rw [hD] at h
      simp only [Except.ok.injEq, Prod.mk.injEq] at h
      obtain ⟨hst', hret⟩ := h
      have hlen : st'.length = ((MetricCompiler.build_query monitor columns).1).length := by
        rw [← hst', MetricCompiler.length_applyDeltas]
      refine ⟨?_, hlen, ?_⟩
      · rw [← hret, hst']
        rw [hmm, MetricCompiler.flattenMap_colEntries st' monitor.table columns 0,
            MetricCompiler.getDSeq_full _ st' 0 (by rw [hlen, hst0]; omega),
            List.drop_zero]
      · rw [← hst', MetricCompiler.skel_applyDeltas]

/-- Witness for C9 on the concrete one-column build and one-row result
set. -/
theorem c9_witness :
    MetricCompiler.wState1 = MetricCompiler.wState1
    ∧ MetricCompiler.wState1.length
        = ((MetricCompiler.build_query MetricCompiler.wMonitor MetricCompiler.wColumns).1).length
    ∧ MetricCompiler.wState1.map MetricCompiler.skel
        = ((MetricCompiler.build_query MetricCompiler.wMonitor
            MetricCompiler.wColumns).1).map MetricCompiler.skel :=
  c9_interpret_returns_build MetricCompiler.wMonitor MetricCompiler.wColumns
    [MetricCompiler.wRow] MetricCompiler.wState1 MetricCompiler.wState1
    (by decide) (by decide)

/-- Claim C10: `nonnull_values` first coerces, in place, every stored
point's value to a float wherever the coercion succeeds (points whose
value cannot be coerced keep their prior value), then returns exactly
the points whose value is not `None`. -/
theorem c10_nonnull_values_spec (m : Metric) :
    (Metric.nonnull_values m).2
        = ((Metric.nonnull_values m).1).values.filter
            (fun p => decide (p.value ≠ PyVal.vNone))
    ∧ ((Metric.nonnull_values m).1).values.length = m.values.length
    ∧ (∀ i : Nat,
        ((Metric.nonnull_values m).1).values.getD i ⟨PyVal.vNone, PyVal.vNone, PyVal.vNone⟩
          = (match pyFloat ((m.values.getD i
                ⟨PyVal.vNone, PyVal.vNone, PyVal.vNone⟩).value) with
             | .ok q => { m.values.getD i ⟨PyVal.vNone, PyVal.vNone, PyVal.vNone⟩ with
                          value := PyVal.vFloat q }
             | .error _ => m.values.getD i ⟨PyVal.vNone, PyVal.vNone, PyVal.vNone⟩))
    ∧ ∀ p, p ∈ (Metric.nonnull_values m).2 ↔
        (p ∈ ((Metric.nonnull_values m).1).values ∧ p.value ≠ PyVal.vNone) := by
  have h1 : (Metric.nonnull_values m).1
      = { m with values := m.values.map Metric.coercePoint } := rfl
  have h2 : (Metric.nonnull_values m).2
      = (m.values.map Metric.coercePoint).filter
          (fun p => decide (p.value ≠ PyVal.vNone)) := rfl
  refine ⟨?_, ?_, ?_, ?_⟩
  · rw [h1, h2]
  · rw [h1]
    exact List.length_map _ _
  · intro i
    rw [h1]
    show (m.values.map Metric.coercePoint).getD i ⟨PyVal.vNone, PyVal.vNone, PyVal.vNone⟩ = _
    rw [getD_map_fixed Metric.coercePoint ⟨PyVal.vNone, PyVal.vNone, PyVal.vNone⟩
      (by decide) m.values i]
    rfl
  · intro p
    rw [h2, h1]
    simp [List.mem_filter]

end Monosi
